import Mathlib

/-!
# The Mangadex grabber (`grabber/mangadex.go`)

A shallow embedding of the Mangadex site grabber: identity test, title
resolution with language fallback, the paginated chapter feed resolver and
the page resolver.

Conventions of the embedding.

* Go strings are Lean strings; Go maps `map[string]string` are functions
  `String → Option String` (one value per key, `none` for an absent key).
* The collaborators the grabber calls into and that live outside
  `mangadex.go` are the fields of `Env`: the transport, the JSON decoder, the
  URL helpers and the number parser.  Every function of the grabber takes the
  environment as its first argument.
* The effects of the transport are threaded explicitly through a `Net`
  value: the log of requests issued so far and the response streams that are
  currently open.
* A Go `panic` is the `Exit.panicked` outcome.  Deferred calls run while a
  panic unwinds, so a `defer rbody.Close()` acts on both outcomes.
* `fetchChaps` recurses until the feed returns an empty page; its embedding
  takes a fuel argument and returns `none` when the fuel runs out.
* `offset` is a Go `int`.  It starts at 0 and grows by 500 per nested call, so
  no run that fits in memory brings it near `2^63`; it is a natural number
  here.
-/

namespace MangaDownloader

/-! ## Data model -/

/-- A float64 value: a finite number, a signed infinity or NaN.  The grabber
never does arithmetic on chapter numbers, so finite values are carried as
rationals. -/
inductive Float64 where
  | finite (q : ℚ)
  | inf (negative : Bool)
  | nan
  deriving DecidableEq

/-- The float64 zero. -/
def Float64.zero : Float64 := Float64.finite 0

/-- The two error kinds `strconv.ParseFloat` reports: the string is not
well-formed, or it is well-formed and outside the float64 range. -/
inductive NumError where
  | ErrSyntax
  | ErrRange
  deriving DecidableEq

/-- Modelled from the spec: the `Grabber` struct embedded in `Mangadex`; one
instance is bound to one source URL and one preferred language. -/
structure Grabber where
  URL : String
  PreferredLanguage : String
  deriving DecidableEq

/-- Mangadex is a grabber for mangadex.org. -/
structure Mangadex extends Grabber where
  title : String
  deriving DecidableEq

/-- Modelled from the spec: a `Page` is a 1-based sequence number and an
absolute URL. -/
structure Page where
  Number : Int
  URL : String
  deriving DecidableEq

/-- Modelled from the spec: a `Chapter` carries title, number, language and,
once resolved, its pages. -/
structure Chapter where
  Title : String
  Number : Float64
  PagesCount : Int
  Language : String
  Pages : List Page
  deriving DecidableEq

/-- MangadexChapter represents a MangaDex chapter. -/
structure MangadexChapter extends Chapter where
  Id : String
  deriving DecidableEq

/-- Modelled from the spec: the `Filterable` interface, by the dynamic type
of the value it holds: a `*MangadexChapter`, or a chapter reference produced
by another backend. -/
inductive Filterable where
  | mangadex (c : MangadexChapter)
  | foreign (c : Chapter)
  deriving DecidableEq

/-- Modelled from the spec: `GetNumber` of the `Filterable` interface, the
number of the chapter. -/
def Filterable.GetNumber : Filterable → Float64
  | Filterable.mangadex c => c.Number
  | Filterable.foreign c => c.Number

/-- The slice type `Filterables`. -/
abbrev Filterables := List Filterable

/-- AltTitles is a slice of maps with the language as key and the title as
value. -/
abbrev AltTitles := List (String → Option String)

/-- The `Attributes` object of the manga json. -/
structure MangaAttributes where
  Title : String → Option String
  AltTitles : AltTitles

/-- The `Data` object of the manga json. -/
structure MangaData where
  Attributes : MangaAttributes

/-- MangadexManga represents the manga json object. -/
structure MangadexManga where
  Id : String
  Data : MangaData

/-- The `Attributes` object of a feed entry. -/
structure FeedAttributes where
  Volume : String
  Chapter : String
  Title : String
  TranslatedLanguage : String
  deriving DecidableEq

/-- One element of the feed's `Data` array. -/
structure FeedEntry where
  Id : String
  Attributes : FeedAttributes
  deriving DecidableEq

/-- MangadexFeed represents the json object returned by the feed endpoint. -/
structure MangadexFeed where
  Data : List FeedEntry
  deriving DecidableEq

/-- The `Chapter` object of the pages json. -/
structure PagesChapter where
  Hash : String
  Data : List String
  DataSaver : List String
  deriving DecidableEq

/-- MangadexPagesFeed represents the json object returned by the pages
endpoint. -/
structure MangadexPagesFeed where
  BaseUrl : String
  Chapter : PagesChapter
  deriving DecidableEq

/-! ## The environment and the transport -/

/-- The parameters of one `http.Get`. -/
structure RequestParams where
  URL : String
  Referer : String
  deriving DecidableEq

/-- The collaborators of the grabber that are not part of `mangadex.go`.
Go `error` values are their messages. -/
structure Env where
  /-- The helper `GetUUID(url)`: the manga identifier found in the URL. -/
  GetUUID : String → String
  /-- The method `Grabber.GetBaseUrl()`. -/
  GetBaseUrl : Grabber → String
  /-- The transport: the response body for a request, or an error. -/
  Get : RequestParams → Except String String
  /-- The call `json.NewDecoder(rbody).Decode(&body)` into a `MangadexManga`. -/
  DecodeManga : String → Except String MangadexManga
  /-- The call `json.NewDecoder(rbody).Decode(&body)` into a `MangadexFeed`. -/
  DecodeFeed : String → Except String MangadexFeed
  /-- The call `json.NewDecoder(rbody).Decode(&body)` into a `MangadexPagesFeed`. -/
  DecodePages : String → Except String MangadexPagesFeed
  /-- The call `url.JoinPath(base, elem...)`. -/
  JoinPath : String → List String → Except String String
  /-- The result of `url.Values.Encode()` for the parameters added, in the order added. -/
  Encode : List (String × String) → String
  /-- The call `strconv.ParseFloat(s, 64)`: the value and the error, if any. -/
  ParseFloat : String → Float64 × Option NumError
  /-- The conversion `int64(x)` of a float64. -/
  toInt64 : Float64 → Int

/-- A response stream handed out by the transport. -/
structure Stream where
  id : Nat
  body : String
  deriving DecidableEq

/-- The observable state of the transport: the requests issued so far, oldest
first, and the identifiers of the response streams that are open. -/
structure Net where
  requests : List RequestParams
  streams : List Nat
  deriving DecidableEq

/-- Modelled from the spec: the transport's `Get(url, optional referer
header) → (readable byte stream, error)`.  Every call is logged; a successful
call opens a fresh stream. -/
def httpGet (env : Env) (p : RequestParams) (net : Net) : Except String Stream × Net :=
  match env.Get p with
  | Except.error e => (Except.error e, { net with requests := net.requests ++ [p] })
  | Except.ok body =>
    (Except.ok { id := net.requests.length, body := body },
     { requests := net.requests ++ [p], streams := net.requests.length :: net.streams })

/-- The effect of `rbody.Close()`: the stream is no longer open. -/
def Stream.Close (s : Stream) (net : Net) : Net :=
  { net with streams := net.streams.erase s.id }

/-- The value a panic carries: an `error`, or the runtime error of a failed
type assertion. -/
inductive PanicValue where
  | error (e : String)
  | typeAssertion
  deriving DecidableEq

/-- How a call of the grabber ends: it returns a value, or it panics. -/
inductive Exit (α : Type) where
  | returned (value : α) (net : Net)
  | panicked (p : PanicValue) (net : Net)

/-- The transport state at the end of a call. -/
def Exit.net {α : Type} : Exit α → Net
  | Exit.returned _ net => net
  | Exit.panicked _ net => net

/-- The value handed to the caller, if the call returned. -/
def Exit.value? {α : Type} : Exit α → Option α
  | Exit.returned v _ => some v
  | Exit.panicked _ _ => none

/-! ## The regular expression of `Test` -/

/-- One position of a regular expression of the fragment used here: a
literal character, or `.`, which matches any character but a newline. -/
inductive Atom where
  | lit (c : Char)
  | anyChar
  deriving DecidableEq

/-- The characters with a meaning of their own in a pattern. -/
def metaChars : List Char :=
  ['\\', '.', '+', '*', '?', '(', ')', '|', '[', ']', '{', '}', '^', '$']

/-- Compile a pattern of the fragment: literal characters, `.` and escaped
punctuation.  Any other pattern is outside the fragment. -/
def compile : List Char → Option (List Atom)
  | [] => some []
  | '\\' :: c :: rest =>
    if c ∈ metaChars then (compile rest).map (fun re => Atom.lit c :: re) else none
  | c :: rest =>
    if c = '.' then (compile rest).map (fun re => Atom.anyChar :: re)
    else if c ∈ metaChars then none
    else (compile rest).map (fun re => Atom.lit c :: re)

/-- Does one atom match one character? -/
def Atom.accepts : Atom → Char → Bool
  | Atom.lit c, d => c == d
  | Atom.anyChar, d => d != '\n'

/-- Does the expression match at the start of the text? -/
def matchHere : List Atom → List Char → Bool
  | [], _ => true
  | _ :: _, [] => false
  | a :: re, c :: s => a.accepts c && matchHere re s

/-- The method `re.MatchString(s)`: does the expression match somewhere in the text? -/
def MatchString (re : List Atom) : List Char → Bool
  | [] => matchHere re []
  | c :: s => matchHere re (c :: s) || MatchString re s

/-! ## The grabber -/

/-- Test checks if the site is MangaDex.  The receiver is a pointer; no field
is assigned, and the grabber is handed back as it came.  `MustCompile` panics
on an invalid pattern; the pattern is a constant of the fragment. -/
def Mangadex.Test (m : Mangadex) : Bool × Mangadex :=
  match compile "mangadex\\.org".data with
  | some re => (MatchString re m.URL.data, m)
  | none => (false, m)

/-- GetTitleByLang returns the title in the given language (or empty if
string is not found). -/
def AltTitles.GetTitleByLang : AltTitles → String → String
  | [], _ => ""
  | t :: a, lang =>
    match t lang with
    | some val => val
    | none => AltTitles.GetTitleByLang a lang

/-- The map index expression `m[key]` of a `map[string]string`: the zero
value for an absent key. -/
def mapIndex (m : String → Option String) (key : String) : String :=
  (m key).getD ""

/-- The metadata request of `GetTitle`. -/
def mangaRequest (env : Env) (m : Mangadex) : RequestParams :=
  let id := env.GetUUID m.URL
  { URL := "https://api.mangadex.org/manga/" ++ id,
    Referer := env.GetBaseUrl m.toGrabber }

/-- GetTitle returns the title of the manga.  The receiver is a pointer: the
grabber comes back with its `title` field as the call left it. -/
def Mangadex.GetTitle (env : Env) (m : Mangadex) (net : Net) : Exit String × Mangadex :=
  if m.title ≠ "" then
    (Exit.returned m.title net, m)
  else
    match httpGet env (mangaRequest env m) net with
    | (Except.error err, net1) => (Exit.panicked (PanicValue.error err) net1, m)
    | (Except.ok rbody, net1) =>
      -- defer rbody.Close()
      match env.DecodeManga rbody.body with
      | Except.error err => (Exit.panicked (PanicValue.error err) (rbody.Close net1), m)
      | Except.ok body =>
        -- fallback to english
        let fallback : Exit String × Mangadex :=
          (Exit.returned (mapIndex body.Data.Attributes.Title "en") (rbody.Close net1),
           { m with title := mapIndex body.Data.Attributes.Title "en" })
        -- fetch the title in the requested language
        if m.PreferredLanguage ≠ "" then
          let trans :=
            AltTitles.GetTitleByLang body.Data.Attributes.AltTitles m.PreferredLanguage
          if trans ≠ "" then
            (Exit.returned trans (rbody.Close net1), { m with title := trans })
          else fallback
        else fallback

/-- The page size of the feed requests. -/
def baseOffset : Nat := 500

/-- The chapter built from one feed entry; the error of `ParseFloat` is
discarded. -/
def feedChapter (env : Env) (c : FeedEntry) : Filterable :=
  let num := (env.ParseFloat c.Attributes.Chapter).1
  Filterable.mangadex
    { Number := num,
      Title := c.Attributes.Title,
      Language := c.Attributes.TranslatedLanguage,
      PagesCount := 0,
      Pages := [],
      Id := c.Id }

/-- The query parameters of the feed request at an offset. -/
def feedParams (m : Mangadex) (offset : Nat) : List (String × String) :=
  [("limit", toString baseOffset), ("order[volume]", "asc"), ("order[chapter]", "asc"),
   ("offset", toString offset)]
  ++ (if m.PreferredLanguage ≠ "" then [("translatedLanguage[]", m.PreferredLanguage)] else [])

/-- The request of the feed page at an offset, when `url.JoinPath` succeeds. -/
def feedRequest (env : Env) (m : Mangadex) (offset : Nat) : Except String RequestParams :=
  match env.JoinPath "https://api.mangadex.org" ["manga", env.GetUUID m.URL, "feed"] with
  | Except.error err => Except.error err
  | Except.ok uri =>
    Except.ok { URL := uri ++ "?" ++ env.Encode (feedParams m offset), Referer := "" }

/-- The closure `fetchChaps` of `FetchChapters`.  The captured slice
`chapters` is part of the state; `none` is fuel exhaustion. -/
def fetchChaps (env : Env) (m : Mangadex) :
    Nat → Nat → Filterables → Net → Option (Exit Filterables)
  | 0, _, _, _ => none
  | fuel + 1, offset, chapters, net =>
    match feedRequest env m offset with
    | Except.error err => some (Exit.panicked (PanicValue.error err) net)
    | Except.ok req =>
      match httpGet env req net with
      | (Except.error err, net1) => some (Exit.panicked (PanicValue.error err) net1)
      | (Except.ok rbody, net1) =>
        -- defer rbody.Close()
        match env.DecodeFeed rbody.body with
        | Except.error err => some (Exit.panicked (PanicValue.error err) (rbody.Close net1))
        | Except.ok body =>
          let chapters1 := chapters ++ body.Data.map (feedChapter env)
          if body.Data.length > 0 then
            match fetchChaps env m fuel (offset + baseOffset) chapters1 net1 with
            | none => none
            | some (Exit.panicked p net2) => some (Exit.panicked p (rbody.Close net2))
            | some (Exit.returned chapters2 net2) =>
              some (Exit.returned chapters2 (rbody.Close net2))
          else
            some (Exit.returned chapters1 (rbody.Close net1))

/-- FetchChapters returns the chapters of the manga. -/
def Mangadex.FetchChapters (env : Env) (m : Mangadex) (fuel : Nat) (net : Net) :
    Option (Exit Filterables) :=
  fetchChaps env m fuel 0 [] net

/-! ### `path.Join` -/

/-- The elements of a path between its slashes. -/
def splitSlash : List Char → List (List Char)
  | [] => [[]]
  | c :: cs =>
    if c = '/' then [] :: splitSlash cs
    else
      match splitSlash cs with
      | [] => [[c]]
      | s :: ss => (c :: s) :: ss

/-- One element of `path.Clean`; `out` holds the elements kept so far, last
first.  Empty and `.` elements are dropped; `..` removes the element before
it, is dropped at the root, and is kept at the start of a relative path. -/
def cleanStep (rooted : Bool) (out : List (List Char)) (seg : List Char) : List (List Char) :=
  if seg = [] ∨ seg = ['.'] then out
  else if seg = ['.', '.'] then
    match out with
    | [] => if rooted then [] else [seg]
    | top :: rest => if top = ['.', '.'] then seg :: out else rest
  else seg :: out

/-- The elements joined with slashes. -/
def joinSlash : List (List Char) → List Char
  | [] => []
  | [s] => s
  | s :: t :: ss => s ++ '/' :: joinSlash (t :: ss)

/-- The function `path.Clean`: the shortest path name equivalent to the path by purely
lexical processing. -/
def pathClean (path : List Char) : List Char :=
  match path with
  | [] => ['.']
  | c :: _ =>
    let rooted : Bool := c = '/'
    let out := (splitSlash path).foldl (cleanStep rooted) []
    let body := joinSlash out.reverse
    if rooted then '/' :: body
    else if body = [] then ['.'] else body

/-- The buffer `path.Join` fills: the elements separated by slashes, the
empty elements before the first non-empty one left out. -/
def joinBuf : List Char → List String → List Char
  | buf, [] => buf
  | buf, e :: es =>
    if buf ≠ [] ∨ e ≠ "" then
      joinBuf ((if buf ≠ [] then buf ++ ['/'] else buf) ++ e.data) es
    else joinBuf buf es

/-- The function `path.Join`: joins the elements with slashes and cleans the result; the
empty string when every element is empty. -/
def pathJoin (elem : List String) : String :=
  if (elem.map String.length).sum = 0 then ""
  else String.mk (pathClean (joinBuf [] elem))

/-! ### `FetchChapter` -/

/-- The verb `%04d`: decimal, zero-padded to width 4, the sign counted in the
width. -/
def fmt04d (n : Int) : String :=
  let digits := toString n.natAbs
  if n < 0 then "-" ++ String.mk (List.replicate (3 - digits.length) '0') ++ digits
  else String.mk (List.replicate (4 - digits.length) '0') ++ digits

/-- The pages of a manifest, the first numbered `i + 1`. -/
def createPages (body : MangadexPagesFeed) : Nat → List String → List Page
  | _, [] => []
  | i, p :: ps =>
    { Number := ((i + 1 : Nat) : Int),
      URL := body.BaseUrl ++ pathJoin ["/data", body.Chapter.Hash, p] }
      :: createPages body (i + 1) ps

/-- The manifest request of `FetchChapter`. -/
def pagesRequest (chap : MangadexChapter) : RequestParams :=
  { URL := "https://api.mangadex.org/at-home/server/" ++ chap.Id, Referer := "" }

/-- FetchChapter fetches a chapter and its pages. -/
def Mangadex.FetchChapter (env : Env) (_m : Mangadex) (f : Filterable) (net : Net) :
    Exit Chapter :=
  match f with
  | Filterable.foreign _ => Exit.panicked PanicValue.typeAssertion net
  | Filterable.mangadex chap =>
    -- download json
    match httpGet env (pagesRequest chap) net with
    | (Except.error err, net1) => Exit.panicked (PanicValue.error err) net1
    | (Except.ok rbody, net1) =>
      -- parse json body
      match env.DecodePages rbody.body with
      | Except.error err => Exit.panicked (PanicValue.error err) net1
      | Except.ok body =>
        Exit.returned
          { Title := "Chapter " ++ fmt04d (env.toInt64 f.GetNumber) ++ " " ++ chap.Title,
            Number := f.GetNumber,
            PagesCount := (body.Chapter.Data.length : Int),
            Language := chap.Language,
            Pages := createPages body 0 body.Chapter.Data }
          net1

/-! ## Vocabulary of the statements -/

/-- The feed page at an offset is served: the request is built, the transport
answers and the answer decodes to `body`. -/
def pageServes (env : Env) (m : Mangadex) (offset : Nat) (body : MangadexFeed) : Prop :=
  ∃ req rbody, feedRequest env m offset = Except.ok req ∧ env.Get req = Except.ok rbody ∧
    env.DecodeFeed rbody = Except.ok body

/-- The feed page at an offset fails with `err`: the request is built, and
either the transport fails or the answer does not decode. -/
def pageFails (env : Env) (m : Mangadex) (offset : Nat) (err : String) : Prop :=
  ∃ req, feedRequest env m offset = Except.ok req ∧
    (env.Get req = Except.error err ∨
      ∃ rbody, env.Get req = Except.ok rbody ∧ env.DecodeFeed rbody = Except.error err)

/-- The transport after a successful request. -/
def Net.opened (net : Net) (req : RequestParams) : Net :=
  { requests := net.requests ++ [req], streams := net.requests.length :: net.streams }

/-- The outcome of a call once one more stream is closed on its way out. -/
def Exit.closing {α : Type} (id : Nat) : Exit α → Exit α
  | Exit.returned v net => Exit.returned v { net with streams := net.streams.erase id }
  | Exit.panicked p net => Exit.panicked p { net with streams := net.streams.erase id }

/-- The number of feed pages of size `baseOffset` that hold `n` chapters. -/
def pagesFor (n : Nat) : Nat :=
  (n + (baseOffset - 1)) / baseOffset

/-- The results of `strconv.ParseFloat`: with `ErrSyntax` the value is 0, with
`ErrRange` the value is `+Inf` or `-Inf`. -/
def strconvResults (parse : String → Float64 × Option NumError) : Prop :=
  ∀ s, ((parse s).2 = some NumError.ErrSyntax → (parse s).1 = Float64.zero)
    ∧ ((parse s).2 = some NumError.ErrRange → ∃ negative, (parse s).1 = Float64.inf negative)

/-- A plain path element: not empty, without a slash, and neither `.` nor
`..`.  `path.Clean` keeps such an element as it is. -/
def plainSegment (s : String) : Prop :=
  s.data ≠ [] ∧ '/' ∉ s.data ∧ s.data ≠ ['.'] ∧ s.data ≠ ['.', '.']

instance (s : String) : Decidable (plainSegment s) := by
  unfold plainSegment
  infer_instance

/-! ## Sample environments

Concrete collaborators on which the functions above can be evaluated. -/

/-- A map with a single key. -/
def oneKey (k v : String) : String → Option String :=
  fun key => if key = k then some v else none

/-- The results of `strconv.ParseFloat(s, 64)` on the strings of the
examples: `"1"` and `"2"` are numbers, `"1e999"` is well-formed and out of
range (the value is `+Inf`, the error `ErrRange`), and `"abc"` is malformed
(the value is 0, the error `ErrSyntax`).  The examples use no other
string. -/
def sampleParseFloat (s : String) : Float64 × Option NumError :=
  if s = "1" then (Float64.finite 1, none)
  else if s = "2" then (Float64.finite 2, none)
  else if s = "1e999" then (Float64.inf false, some NumError.ErrRange)
  else (Float64.zero, some NumError.ErrSyntax)

/-- The conversion `int64(x)` on the sample numbers: truncation toward zero
for a finite value. -/
def sampleToInt64 : Float64 → Int
  | Float64.finite q => Int.tdiv q.num (q.den : Int)
  | _ => -(2 ^ 63)

/-- A sample environment around a transport and three decoders.  Paths are
joined with slashes and query parameters are written `key=value` joined with
`&`. -/
def sampleEnv (get : RequestParams → Except String String)
    (manga : String → Except String MangadexManga)
    (feed : String → Except String MangadexFeed)
    (pages : String → Except String MangadexPagesFeed) : Env :=
  { GetUUID := fun _ => "uuid",
    GetBaseUrl := fun g => g.URL,
    Get := get,
    DecodeManga := manga,
    DecodeFeed := feed,
    DecodePages := pages,
    JoinPath := fun base elem => Except.ok (base ++ "/" ++ "/".intercalate elem),
    Encode := fun kvs => "&".intercalate (kvs.map (fun kv => kv.1 ++ "=" ++ kv.2)),
    ParseFloat := sampleParseFloat,
    toInt64 := sampleToInt64 }

/-- A metadata response. -/
def mangaOf (title : String → Option String) (alt : AltTitles) : MangadexManga :=
  { Id := "uuid", Data := { Attributes := { Title := title, AltTitles := alt } } }

/-- An environment whose metadata endpoint answers with the given
response. -/
def titleEnv (body : MangadexManga) : Env :=
  sampleEnv (fun _ => Except.ok "manga.json") (fun _ => Except.ok body)
    (fun _ => Except.error "unexpected") (fun _ => Except.error "unexpected")

/-- A grabber bound to a Mangadex URL with a preferred language and no
cached title. -/
def grabberFor (lang : String) : Mangadex :=
  { URL := "https://mangadex.org/title/uuid", PreferredLanguage := lang, title := "" }

/-- A transport on which nothing has happened yet. -/
def idle : Net := { requests := [], streams := [] }

/-- Two sequential `GetTitle` calls: the outcome of the second call and the
grabber after it. -/
def getTitleTwice (env : Env) (m : Mangadex) (net : Net) : Exit String × Mangadex :=
  let first := Mangadex.GetTitle env m net
  Mangadex.GetTitle env first.2 first.1.net

/-- The URL of the feed request of `grabberFor ""` in a sample environment,
up to the offset. -/
def feedUrl (offset : String) : String :=
  "https://api.mangadex.org/manga/uuid/feed?limit=500&order[volume]=asc&order[chapter]=asc&offset="
    ++ offset

/-- A feed entry of volume 1 in English. -/
def entry (id chapter title : String) : FeedEntry :=
  { Id := id,
    Attributes := { Volume := "1", Chapter := chapter, Title := title, TranslatedLanguage := "en" } }

/-- A feed that serves the given entries at offset 0 and an empty page at
every other offset. -/
def servedFeed (first : List FeedEntry) : Env :=
  sampleEnv (fun req => if req.URL = feedUrl "0" then Except.ok "page0" else Except.ok "empty")
    (fun _ => Except.error "unexpected")
    (fun rbody =>
      if rbody = "page0" then Except.ok { Data := first }
      else if rbody = "empty" then Except.ok { Data := [] }
      else Except.error "invalid character")
    (fun _ => Except.error "unexpected")

/-- A feed of three pages whose second page does not decode: one chapter at
offset 0, a body that is not JSON at offset 500, one chapter at offset 1000
and an empty page at every other offset. -/
def brokenFeed : Env :=
  sampleEnv
    (fun req =>
      if req.URL = feedUrl "0" then Except.ok "page0"
      else if req.URL = feedUrl "500" then Except.ok "<html>"
      else if req.URL = feedUrl "1000" then Except.ok "page2"
      else Except.ok "empty")
    (fun _ => Except.error "unexpected")
    (fun rbody =>
      if rbody = "page0" then Except.ok { Data := [entry "c1" "1" "One"] }
      else if rbody = "page2" then Except.ok { Data := [entry "c2" "2" "Two"] }
      else if rbody = "empty" then Except.ok { Data := [] }
      else Except.error "invalid character")
    (fun _ => Except.error "unexpected")

/-- A page manifest. -/
def manifest (baseUrl hash : String) (files : List String) : MangadexPagesFeed :=
  { BaseUrl := baseUrl, Chapter := { Hash := hash, Data := files, DataSaver := [] } }

/-- An environment whose manifest endpoint answers with the given
manifest. -/
def pagesEnv (body : MangadexPagesFeed) : Env :=
  sampleEnv (fun _ => Except.ok "at-home.json") (fun _ => Except.error "unexpected")
    (fun _ => Except.error "unexpected") (fun _ => Except.ok body)

/-- A chapter as the feed resolver produces it. -/
def sampleChapter : MangadexChapter :=
  { Title := "One", Number := Float64.finite 1, PagesCount := 0, Language := "en", Pages := [],
    Id := "c1" }

/-! ## Identity test -/

/-- The constant pattern of `Test` compiles to the twelve literal characters
of `mangadex.org`: the escaped dot is a literal dot. -/
theorem compile_pattern :
    compile "mangadex\\.org".data = some ("mangadex.org".data.map Atom.lit) := by
  decide

/-- An expression of literal characters matches at the start of a text
exactly when the text starts with those characters. -/
theorem matchHere_lit (p s : List Char) :
    matchHere (p.map Atom.lit) s = true ↔ ∃ post, s = p ++ post := by
  induction p generalizing s with
  | nil => simp [matchHere]
  | cons c p ih =>
    cases s with
    | nil => simp [matchHere]
    | cons d s =>
      simp only [List.map_cons, matchHere, Bool.and_eq_true, ih, Atom.accepts, beq_iff_eq,
        List.cons_append, List.cons.injEq]
      constructor
      · rintro ⟨rfl, post, rfl⟩
        exact ⟨post, rfl, rfl⟩
      · rintro ⟨post, rfl, rfl⟩
        exact ⟨rfl, post, rfl⟩

/-- An expression of literal characters matches somewhere in a text exactly
when the text contains those characters as a contiguous block. -/
theorem MatchString_lit (p s : List Char) :
    MatchString (p.map Atom.lit) s = true ↔ ∃ pre post, s = pre ++ p ++ post := by
  induction s with
  | nil =>
    simp only [MatchString, matchHere_lit]
    constructor
    · rintro ⟨post, h⟩
      exact ⟨[], post, by simpa using h⟩
    · rintro ⟨pre, post, h⟩
      have h1 : pre = [] := by
        cases pre with
        | nil => rfl
        | cons a l => simp at h
      subst h1
      exact ⟨post, by simpa using h⟩
  | cons c s ih =>
    simp only [MatchString, Bool.or_eq_true, matchHere_lit, ih]
    constructor
    · rintro (⟨post, h⟩ | ⟨pre, post, h⟩)
      · exact ⟨[], post, by simpa using h⟩
      · exact ⟨c :: pre, post, by simp [h]⟩
    · rintro ⟨pre, post, h⟩
      cases pre with
      | nil => exact Or.inl ⟨post, by simpa using h⟩
      | cons a l =>
        simp only [List.cons_append, List.cons.injEq] at h
        exact Or.inr ⟨l, post, by simpa using h.2⟩

/-- The result of `Test` is the literal search for `mangadex.org` in the URL and hands the
grabber back. -/
theorem Test_eq (m : Mangadex) :
    Mangadex.Test m = (MatchString ("mangadex.org".data.map Atom.lit) m.URL.data, m) := by
  unfold Mangadex.Test
  rw [compile_pattern]

/-- C9: `Test` is a pure predicate over the bound URL.  Two grabbers with the
same URL give the same result whatever their preferred languages and cached
titles are, `Test` hands the grabber back with every field unchanged, and the
result is true exactly when the URL contains `mangadex.org` as a contiguous
substring. -/
theorem Test_pure_domain_match (url lang1 lang2 title1 title2 : String) (m : Mangadex) :
    (Mangadex.Test { URL := url, PreferredLanguage := lang1, title := title1 }).1
        = (Mangadex.Test { URL := url, PreferredLanguage := lang2, title := title2 }).1
      ∧ (Mangadex.Test m).2 = m
      ∧ ((Mangadex.Test m).1 = true ↔
          ∃ pre post : List Char, m.URL.data = pre ++ "mangadex.org".data ++ post) := by
  refine ⟨?_, ?_, ?_⟩
  · rw [Test_eq, Test_eq]
  · rw [Test_eq]
  · rw [Test_eq]
    exact MatchString_lit _ _

/-! ## The library models on the examples of their documentation -/

/-- The examples of the documentation of `path.Clean` and `path.Join`. -/
theorem path_examples :
    pathClean "a/c".data = "a/c".data
      ∧ pathClean "a//c".data = "a/c".data
      ∧ pathClean "a/c/.".data = "a/c".data
      ∧ pathClean "a/c/b/..".data = "a/c".data
      ∧ pathClean "/../a/c".data = "/a/c".data
      ∧ pathClean "/../a/b/../././/c".data = "/a/c".data
      ∧ pathClean "".data = ".".data
      ∧ pathJoin ["a", "b", "c"] = "a/b/c"
      ∧ pathJoin ["a", "b/c"] = "a/b/c"
      ∧ pathJoin ["a/b", "c"] = "a/b/c"
      ∧ pathJoin ["a/b", "../../../xyz"] = "../xyz"
      ∧ pathJoin ["", ""] = ""
      ∧ pathJoin ["a", ""] = "a"
      ∧ pathJoin ["", "a"] = "a" := by
  decide

/-- The verb `%04d` on a few numbers. -/
theorem fmt04d_examples :
    fmt04d 1 = "0001" ∧ fmt04d 12 = "0012" ∧ fmt04d 1234 = "1234" ∧ fmt04d 12345 = "12345"
      ∧ fmt04d 0 = "0000" ∧ fmt04d (-5) = "-005" := by
  decide

/-! ## Alternate titles -/

/-- When no entry has the language as a key, the lookup gives the empty
string. -/
theorem GetTitleByLang_absent (a : AltTitles) (lang : String)
    (h : ∀ t ∈ a, t lang = none) : AltTitles.GetTitleByLang a lang = "" := by
  induction a with
  | nil => rfl
  | cons t a ih =>
    have ht : t lang = none := h t (List.mem_cons_self _ _)
    simp only [AltTitles.GetTitleByLang, ht]
    exact ih (fun u hu => h u (List.mem_cons_of_mem _ hu))

/-- The lookup gives the value of the first entry that has the language as a
key. -/
theorem GetTitleByLang_first (a : AltTitles) (lang : String) (i : Nat)
    (t : String → Option String) (val : String)
    (hi : a[i]? = some t) (hval : t lang = some val)
    (hbefore : ∀ j, j < i → ∀ u, a[j]? = some u → u lang = none) :
    AltTitles.GetTitleByLang a lang = val := by
  induction a generalizing i with
  | nil => simp at hi
  | cons u a ih =>
    cases i with
    | zero =>
      simp only [List.getElem?_cons_zero, Option.some.injEq] at hi
      subst hi
      simp only [AltTitles.GetTitleByLang, hval]
    | succ i =>
      have hu : u lang = none := hbefore 0 (Nat.succ_pos i) u (by simp)
      simp only [AltTitles.GetTitleByLang, hu]
      refine ih i (by simpa using hi) ?_
      intro j hj w hw
      exact hbefore (j + 1) (Nat.succ_lt_succ hj) w (by simpa using hw)

/-- C8: `GetTitleByLang(lang)` returns the value stored under `lang` in the
lowest-index entry of the list that has `lang` as a key, so the first match in
list order wins, and returns the empty string when no entry has `lang` as a
key. -/
theorem GetTitleByLang_first_match_wins (a : AltTitles) (lang : String) :
    (∀ (i : Nat) (t : String → Option String) (val : String),
        a[i]? = some t → t lang = some val →
        (∀ j, j < i → ∀ u, a[j]? = some u → u lang = none) →
        AltTitles.GetTitleByLang a lang = val)
      ∧ ((∀ t ∈ a, t lang = none) → AltTitles.GetTitleByLang a lang = "") :=
  ⟨fun i t val hi hval hbefore => GetTitleByLang_first a lang i t val hi hval hbefore,
   GetTitleByLang_absent a lang⟩

/-! ## The transport -/

/-- A successful `Get` logs the request and opens one stream. -/
theorem httpGet_ok (env : Env) (p : RequestParams) (net : Net) (rbody : String)
    (h : env.Get p = Except.ok rbody) :
    httpGet env p net =
      (Except.ok { id := net.requests.length, body := rbody },
       { requests := net.requests ++ [p], streams := net.requests.length :: net.streams }) := by
  simp only [httpGet, h]

/-- A failed `Get` logs the request and opens no stream. -/
theorem httpGet_error (env : Env) (p : RequestParams) (net : Net) (err : String)
    (h : env.Get p = Except.error err) :
    httpGet env p net = (Except.error err, { net with requests := net.requests ++ [p] }) := by
  simp only [httpGet, h]

/-- Closing the stream opened last leaves the streams that were open
before. -/
theorem Close_opened (n : Nat) (rbody : String) (reqs : List RequestParams) (open_ : List Nat) :
    Stream.Close { id := n, body := rbody } { requests := reqs, streams := n :: open_ }
      = { requests := reqs, streams := open_ } := by
  simp [Stream.Close]

/-! ## Title resolution -/

/-- A grabber with a cached title returns it and fetches nothing. -/
theorem GetTitle_cached (env : Env) (m : Mangadex) (net : Net) (h : m.title ≠ "") :
    Mangadex.GetTitle env m net = (Exit.returned m.title net, m) := by
  simp only [Mangadex.GetTitle, h, ne_eq, not_false_eq_true, if_true]

/-- The title a successful first call resolves: the alternate title in the
preferred language when a language is set and that title is not empty, the
title keyed `en` otherwise. -/
theorem GetTitle_fetched (env : Env) (m : Mangadex) (net : Net) (rbody : String)
    (body : MangadexManga) (hcache : m.title = "")
    (hget : env.Get (mangaRequest env m) = Except.ok rbody)
    (hdec : env.DecodeManga rbody = Except.ok body) :
    Mangadex.GetTitle env m net =
      (if m.PreferredLanguage ≠ "" ∧
            AltTitles.GetTitleByLang body.Data.Attributes.AltTitles m.PreferredLanguage ≠ "" then
          (Exit.returned
              (AltTitles.GetTitleByLang body.Data.Attributes.AltTitles m.PreferredLanguage)
              { requests := net.requests ++ [mangaRequest env m], streams := net.streams },
           { m with title :=
              AltTitles.GetTitleByLang body.Data.Attributes.AltTitles m.PreferredLanguage })
        else
          (Exit.returned (mapIndex body.Data.Attributes.Title "en")
              { requests := net.requests ++ [mangaRequest env m], streams := net.streams },
           { m with title := mapIndex body.Data.Attributes.Title "en" })) := by
  simp only [Mangadex.GetTitle, hcache, ne_eq, not_true_eq_false, if_false,
    httpGet_ok env _ net rbody hget, hdec, Close_opened]
  by_cases hlang : m.PreferredLanguage = ""
  · simp [hlang]
  · by_cases htrans :
        AltTitles.GetTitleByLang body.Data.Attributes.AltTitles m.PreferredLanguage = ""
    · simp [hlang, htrans]
    · simp [hlang, htrans]

/-- A successful first call returns a title, logs the metadata request,
leaves no stream open and stores the title in the grabber. -/
theorem GetTitle_fetched_shape (env : Env) (m : Mangadex) (net : Net) (rbody : String)
    (body : MangadexManga) (hcache : m.title = "")
    (hget : env.Get (mangaRequest env m) = Except.ok rbody)
    (hdec : env.DecodeManga rbody = Except.ok body) :
    ∃ t : String, Mangadex.GetTitle env m net =
      (Exit.returned t { requests := net.requests ++ [mangaRequest env m], streams := net.streams },
       { m with title := t }) := by
  rw [GetTitle_fetched env m net rbody body hcache hget hdec]
  split_ifs
  · exact ⟨_, rfl⟩
  · exact ⟨_, rfl⟩

/-- C3, counterexample: the claim as stated fails when the first alternate
title keyed by the preferred language is the empty string.  With alternate
titles `[{es: ""}]`, canonical title `{en: "C"}` and language `es`, the first
entry keyed by `es` holds `""`, and `GetTitle` returns `"C"`. -/
theorem GetTitle_first_keyed_entry_counterexample :
    ¬ ∀ (env : Env) (m : Mangadex) (net : Net) (rbody : String) (body : MangadexManga)
        (i : Nat) (t : String → Option String) (val : String),
        m.title = "" →
        env.Get (mangaRequest env m) = Except.ok rbody →
        env.DecodeManga rbody = Except.ok body →
        m.PreferredLanguage ≠ "" →
        body.Data.Attributes.AltTitles[i]? = some t →
        t m.PreferredLanguage = some val →
        (∀ j, j < i → ∀ u, body.Data.Attributes.AltTitles[j]? = some u →
          u m.PreferredLanguage = none) →
        (Mangadex.GetTitle env m net).1.value? = some val := by
  intro h
  have h1 := h (titleEnv (mangaOf (oneKey "en" "C") [oneKey "es" ""])) (grabberFor "es") idle
    "manga.json" (mangaOf (oneKey "en" "C") [oneKey "es" ""]) 0 (oneKey "es" "") ""
    rfl rfl rfl (by decide) rfl rfl (by intro j hj; omega)
  have h2 : (Mangadex.GetTitle (titleEnv (mangaOf (oneKey "en" "C") [oneKey "es" ""]))
      (grabberFor "es") idle).1.value? = some "C" := by
    rw [GetTitle_fetched _ _ _ "manga.json" (mangaOf (oneKey "en" "C") [oneKey "es" ""])
      rfl rfl rfl]
    rfl
  rw [h2] at h1
  exact absurd h1 (by decide)

/-- C3, amended: on a grabber with no cached title and a decoded metadata
response, the first `GetTitle` call returns the title of the first
alternate-titles entry keyed by the preferred language when the language is
not empty, such an entry exists and its title is not empty; it returns the
canonical title keyed `en` (the empty string when the map has no such key)
when the language is empty, when no entry is keyed by it, or when the first
entry keyed by it holds the empty title. -/
theorem GetTitle_language_fallback (env : Env) (m : Mangadex) (net : Net) (rbody : String)
    (body : MangadexManga) (hcache : m.title = "")
    (hget : env.Get (mangaRequest env m) = Except.ok rbody)
    (hdec : env.DecodeManga rbody = Except.ok body) :
    (∀ (i : Nat) (t : String → Option String) (val : String),
        m.PreferredLanguage ≠ "" →
        body.Data.Attributes.AltTitles[i]? = some t →
        t m.PreferredLanguage = some val →
        val ≠ "" →
        (∀ j, j < i → ∀ u, body.Data.Attributes.AltTitles[j]? = some u →
          u m.PreferredLanguage = none) →
        (Mangadex.GetTitle env m net).1.value? = some val)
      ∧ ((m.PreferredLanguage = ""
            ∨ (∀ t ∈ body.Data.Attributes.AltTitles, t m.PreferredLanguage = none)
            ∨ (∃ (i : Nat) (t : String → Option String),
                body.Data.Attributes.AltTitles[i]? = some t ∧ t m.PreferredLanguage = some "" ∧
                ∀ j, j < i → ∀ u, body.Data.Attributes.AltTitles[j]? = some u →
                  u m.PreferredLanguage = none)) →
          (Mangadex.GetTitle env m net).1.value?
            = some (mapIndex body.Data.Attributes.Title "en")) := by
  rw [GetTitle_fetched env m net rbody body hcache hget hdec]
  constructor
  · intro i t val hlang hi hval hne hbefore
    have hfirst := GetTitleByLang_first _ _ i t val hi hval hbefore
    rw [hfirst, if_pos ⟨hlang, hne⟩]
    rfl
  · intro h
    have hno : ¬ (m.PreferredLanguage ≠ "" ∧
        AltTitles.GetTitleByLang body.Data.Attributes.AltTitles m.PreferredLanguage ≠ "") := by
      rintro ⟨hlang, htrans⟩
      rcases h with h | h | ⟨i, t, hi, hval, hbefore⟩
      · exact hlang h
      · exact htrans (GetTitleByLang_absent _ _ h)
      · exact htrans (GetTitleByLang_first _ _ i t "" hi hval hbefore)
    rw [if_neg hno]
    rfl

/-- C3, the examples: with alternate titles `[{fr: A}, {es: B}]` and canonical
title `{en: C}`, the language `es` gives `B`, `de` gives `C` and the empty
language gives `C`. -/
theorem GetTitle_language_fallback_witness :
    (Mangadex.GetTitle (titleEnv (mangaOf (oneKey "en" "C") [oneKey "fr" "A", oneKey "es" "B"]))
        (grabberFor "es") idle).1.value? = some "B"
      ∧ (Mangadex.GetTitle
          (titleEnv (mangaOf (oneKey "en" "C") [oneKey "fr" "A", oneKey "es" "B"]))
          (grabberFor "de") idle).1.value? = some "C"
      ∧ (Mangadex.GetTitle
          (titleEnv (mangaOf (oneKey "en" "C") [oneKey "fr" "A", oneKey "es" "B"]))
          (grabberFor "") idle).1.value? = some "C" :=
  ⟨(GetTitle_language_fallback
      (titleEnv (mangaOf (oneKey "en" "C") [oneKey "fr" "A", oneKey "es" "B"]))
      (grabberFor "es") idle "manga.json"
      (mangaOf (oneKey "en" "C") [oneKey "fr" "A", oneKey "es" "B"]) rfl rfl rfl).1
      1 (oneKey "es" "B") "B" (by decide) rfl rfl (by decide)
      (by
        intro j hj u hu
        have hj0 : j = 0 := by omega
        subst hj0
        simp only [mangaOf, List.getElem?_cons_zero, Option.some.injEq] at hu
        subst hu
        rfl),
   (GetTitle_language_fallback
      (titleEnv (mangaOf (oneKey "en" "C") [oneKey "fr" "A", oneKey "es" "B"]))
      (grabberFor "de") idle "manga.json"
      (mangaOf (oneKey "en" "C") [oneKey "fr" "A", oneKey "es" "B"]) rfl rfl rfl).2
      (Or.inr (Or.inl (by
        intro t ht
        simp only [mangaOf, List.mem_cons, List.mem_singleton, List.not_mem_nil, or_false] at ht
        rcases ht with rfl | rfl <;> rfl))),
   (GetTitle_language_fallback
      (titleEnv (mangaOf (oneKey "en" "C") [oneKey "fr" "A", oneKey "es" "B"]))
      (grabberFor "") idle "manga.json"
      (mangaOf (oneKey "en" "C") [oneKey "fr" "A", oneKey "es" "B"]) rfl rfl rfl).2
      (Or.inl rfl)⟩

/-- C4, counterexample: the cache test is `title != ""`, so an empty resolved
title is fetched again.  With a title map keyed `ja` only, no alternate titles
and no preferred language, two sequential calls issue two requests. -/
theorem GetTitle_two_fetches_counterexample :
    ¬ ∀ (env : Env) (m : Mangadex) (net : Net) (rbody : String) (body : MangadexManga),
        m.title = "" →
        env.Get (mangaRequest env m) = Except.ok rbody →
        env.DecodeManga rbody = Except.ok body →
        (getTitleTwice env m net).1.net.requests.length = net.requests.length + 1 := by
  intro h
  have h1 := h (titleEnv (mangaOf (oneKey "ja" "X") [])) (grabberFor "") idle "manga.json"
    (mangaOf (oneKey "ja" "X") []) rfl rfl rfl
  have h2 : (getTitleTwice (titleEnv (mangaOf (oneKey "ja" "X") [])) (grabberFor "")
      idle).1.net.requests.length = 2 := by
    unfold getTitleTwice
    rw [GetTitle_fetched _ (grabberFor "") idle "manga.json" (mangaOf (oneKey "ja" "X") [])
      rfl rfl rfl]
    rfl
  rw [h2] at h1
  exact absurd h1 (by decide)

/-- C4, amended: on a grabber with no cached title and a decoded metadata
response whose resolved title is not empty, two sequential `GetTitle` calls
trigger exactly one metadata fetch in total: the first call issues the
metadata request and caches the title, the second returns the same value and
leaves the transport and the grabber as the first call left them. -/
theorem GetTitle_memoized (env : Env) (m : Mangadex) (net : Net) (rbody : String)
    (body : MangadexManga) (hcache : m.title = "")
    (hget : env.Get (mangaRequest env m) = Except.ok rbody)
    (hdec : env.DecodeManga rbody = Except.ok body)
    (hne : (Mangadex.GetTitle env m net).1.value? ≠ some "") :
    (Mangadex.GetTitle env m net).1.net.requests = net.requests ++ [mangaRequest env m]
      ∧ (getTitleTwice env m net).1.value? = (Mangadex.GetTitle env m net).1.value?
      ∧ (getTitleTwice env m net).1.net = (Mangadex.GetTitle env m net).1.net
      ∧ (getTitleTwice env m net).2 = (Mangadex.GetTitle env m net).2
      ∧ (getTitleTwice env m net).1.net.requests.length = net.requests.length + 1 := by
  obtain ⟨t, ht⟩ := GetTitle_fetched_shape env m net rbody body hcache hget hdec
  have hcached : ({ m with title := t } : Mangadex).title ≠ "" := by
    intro h0
    apply hne
    rw [ht]
    exact congrArg some h0
  unfold getTitleTwice
  rw [ht]
  simp only [Exit.net]
  rw [GetTitle_cached env _ _ hcached]
  simp [Exit.net, Exit.value?]

/-- C4, an instance: with canonical title `{en: C}` and no preferred language
the two calls issue one request and both return `C`. -/
theorem GetTitle_memoized_witness :
    (Mangadex.GetTitle (titleEnv (mangaOf (oneKey "en" "C") [])) (grabberFor "") idle).1.value?
        ≠ some ""
      ∧ (getTitleTwice (titleEnv (mangaOf (oneKey "en" "C") [])) (grabberFor "")
          idle).1.net.requests.length = idle.requests.length + 1 :=
  have hne : (Mangadex.GetTitle (titleEnv (mangaOf (oneKey "en" "C") [])) (grabberFor "")
      idle).1.value? ≠ some "" := by
    rw [GetTitle_fetched _ (grabberFor "") idle "manga.json" (mangaOf (oneKey "en" "C") [])
      rfl rfl rfl]
    decide
  ⟨hne, (GetTitle_memoized (titleEnv (mangaOf (oneKey "en" "C") [])) (grabberFor "") idle
    "manga.json" (mangaOf (oneKey "en" "C") []) rfl rfl rfl hne).2.2.2.2⟩

/-! ## The feed resolver -/

/-- One call of `fetchChaps` on a page that is served: the chapters of the
page are appended; a page with entries is followed by the call at the next
offset, after which the stream of this call is closed; an empty page ends the
recursion. -/
theorem fetchChaps_step (env : Env) (m : Mangadex) (fuel offset : Nat) (chapters : Filterables)
    (net : Net) (body : MangadexFeed) (h : pageServes env m offset body) :
    ∃ req, fetchChaps env m (fuel + 1) offset chapters net =
      if body.Data.length > 0 then
        (fetchChaps env m fuel (offset + baseOffset)
            (chapters ++ body.Data.map (feedChapter env)) (net.opened req)).map
          (Exit.closing net.requests.length)
      else
        some (Exit.returned (chapters ++ body.Data.map (feedChapter env))
          { requests := net.requests ++ [req], streams := net.streams }) := by
  obtain ⟨req, rbody, hreq, hget, hdec⟩ := h
  refine ⟨req, ?_⟩
  simp only [fetchChaps, hreq, httpGet_ok env req net rbody hget, hdec, Close_opened]
  split_ifs with hlen
  · simp only [Net.opened]
    cases fetchChaps env m fuel (offset + baseOffset)
        (chapters ++ body.Data.map (feedChapter env))
        { requests := net.requests ++ [req], streams := net.requests.length :: net.streams } with
    | none => rfl
    | some e =>
      cases e with
      | returned v net2 => rfl
      | panicked p net2 => rfl
  · rfl

/-- One call of `fetchChaps` on a page that fails: the call panics with the
error of the page, the request is logged and no stream stays open. -/
theorem fetchChaps_fails (env : Env) (m : Mangadex) (fuel offset : Nat) (chapters : Filterables)
    (net : Net) (err : String) (h : pageFails env m offset err) :
    ∃ req, fetchChaps env m (fuel + 1) offset chapters net =
      some (Exit.panicked (PanicValue.error err)
        { requests := net.requests ++ [req], streams := net.streams }) := by
  obtain ⟨req, hreq, hget | ⟨rbody, hget, hdec⟩⟩ := h
  · exact ⟨req, by simp only [fetchChaps, hreq, httpGet_error env req net err hget]⟩
  · exact ⟨req, by
      simp only [fetchChaps, hreq, httpGet_ok env req net rbody hget, hdec, Close_opened]⟩

/-- The number of pages is the ceiling of `n / 500`. -/
theorem pagesFor_ceil (n : Nat) :
    n ≤ baseOffset * pagesFor n ∧ baseOffset * pagesFor n < n + baseOffset := by
  simp only [pagesFor, baseOffset]
  omega

/-- Closing the stream a call opened gives back the streams the call
found. -/
theorem closing_opened {α : Type} (e : Exit α) (net : Net) (req : RequestParams)
    (h : e.net.streams = (net.opened req).streams) :
    (Exit.closing net.requests.length e).net.streams = net.streams
      ∧ (Exit.closing net.requests.length e).net.requests = e.net.requests := by
  cases e with
  | returned v net2 =>
    simp only [Exit.net, Net.opened] at h
    simp [Exit.closing, Exit.net, h]
  | panicked p net2 =>
    simp only [Exit.net, Net.opened] at h
    simp [Exit.closing, Exit.net, h]

/-- The resolver on a feed served in pages of 500, started at the page with
index `j`: it returns the chapters accumulated so far followed by the
chapters of the entries from `500 * j` on, issues one request per remaining
page and one more, and closes every stream it opened. -/
theorem fetchChaps_paged (env : Env) (m : Mangadex) (feed : List FeedEntry)
    (hserve : ∀ i, i ≤ pagesFor feed.length →
      pageServes env m (baseOffset * i) { Data := (feed.drop (baseOffset * i)).take baseOffset }) :
    ∀ (fuel j : Nat) (chapters : Filterables) (net : Net),
      j ≤ pagesFor feed.length → pagesFor feed.length - j + 1 ≤ fuel →
      ∃ net1, fetchChaps env m fuel (baseOffset * j) chapters net =
          some (Exit.returned
            (chapters ++ (feed.drop (baseOffset * j)).map (feedChapter env)) net1)
        ∧ net1.streams = net.streams
        ∧ net1.requests.length = net.requests.length + (pagesFor feed.length - j + 1) := by
  intro fuel
  induction fuel with
  | zero =>
    intro j chapters net _ hfuel
    omega
  | succ fuel ih =>
    intro j chapters net hj hfuel
    obtain ⟨req, hstep⟩ := fetchChaps_step env m fuel (baseOffset * j) chapters net _ (hserve j hj)
    rw [hstep]
    have hceil := pagesFor_ceil feed.length
    by_cases hlast : j = pagesFor feed.length
    · have hdrop : feed.drop (baseOffset * j) = [] := by
        apply List.drop_eq_nil_of_le
        rw [hlast]
        exact hceil.1
      simp only [hdrop, List.take_nil, List.map_nil, List.length_nil, gt_iff_lt, lt_self_iff_false,
        if_false, List.append_nil]
      refine ⟨_, rfl, rfl, ?_⟩
      simp only [List.length_append, List.length_singleton]
      omega
    · have hlt : j < pagesFor feed.length := lt_of_le_of_ne hj hlast
      have hmul : baseOffset * j + baseOffset ≤ baseOffset * pagesFor feed.length := by
        have : baseOffset * (j + 1) ≤ baseOffset * pagesFor feed.length :=
          Nat.mul_le_mul_left _ hlt
        simpa [Nat.mul_succ] using this
      have hpos : ((feed.drop (baseOffset * j)).take baseOffset).length > 0 := by
        simp only [List.length_take, List.length_drop, baseOffset] at hceil hmul ⊢
        omega
      simp only [hpos, if_true]
      obtain ⟨net2, hrec, hstreams, hlen⟩ := ih (j + 1)
        (chapters ++ ((feed.drop (baseOffset * j)).take baseOffset).map (feedChapter env))
        (net.opened req) hlt (by omega)
      have hoff : baseOffset * j + baseOffset = baseOffset * (j + 1) := by
        simp [Nat.mul_succ]
      rw [hoff, hrec]
      simp only [Option.map_some', Exit.closing]
      refine ⟨{ requests := net2.requests, streams := net2.streams.erase net.requests.length },
        ?_, ?_, ?_⟩
      · have hsplit : (feed.drop (baseOffset * j)).take baseOffset
            ++ feed.drop (baseOffset * (j + 1)) = feed.drop (baseOffset * j) := by
          rw [← hoff, ← List.drop_drop]
          exact List.take_append_drop _ _
        rw [List.append_assoc, ← List.map_append, hsplit]
      · simp [hstreams, Net.opened]
      · simp only [hlen, Net.opened, List.length_append, List.length_singleton]
        omega

/-- On a feed served in pages of 500 the resolver returns, with enough fuel,
the chapters of the entries of the feed in order. -/
theorem FetchChapters_served (env : Env) (m : Mangadex) (feed : List FeedEntry) (net : Net)
    (fuel : Nat)
    (hserve : ∀ i, i ≤ pagesFor feed.length →
      pageServes env m (baseOffset * i) { Data := (feed.drop (baseOffset * i)).take baseOffset })
    (hfuel : pagesFor feed.length + 1 ≤ fuel) :
    ∃ net1, Mangadex.FetchChapters env m fuel net =
      some (Exit.returned (feed.map (feedChapter env)) net1) := by
  obtain ⟨net1, hrun, -, -⟩ :=
    fetchChaps_paged env m feed hserve fuel 0 [] net (Nat.zero_le _) (by omega)
  exact ⟨net1, by simpa [Mangadex.FetchChapters] using hrun⟩

/-- C1: on a feed that serves its `N` chapters in pages of the fixed size 500
(the request at offset `o` returns the entries `o .. min(o+500, N)-1` in feed
order and no entry when `o ≥ N`; only the offsets `0, 500, ..` up to the first
empty page are used), `FetchChapters` returns, with any fuel of at least
`⌈N/500⌉ + 1`, exactly the `N` chapters of those entries in the feed's order,
issues exactly `⌈N/500⌉ + 1` requests and leaves no stream open. -/
theorem FetchChapters_paged_feed (env : Env) (m : Mangadex) (feed : List FeedEntry) (net : Net)
    (fuel : Nat)
    (hserve : ∀ i, i ≤ pagesFor feed.length →
      pageServes env m (baseOffset * i) { Data := (feed.drop (baseOffset * i)).take baseOffset })
    (hfuel : pagesFor feed.length + 1 ≤ fuel) :
    ∃ net1, Mangadex.FetchChapters env m fuel net =
        some (Exit.returned (feed.map (feedChapter env)) net1)
      ∧ (feed.map (feedChapter env)).length = feed.length
      ∧ net1.requests.length = net.requests.length + (pagesFor feed.length + 1)
      ∧ net1.streams = net.streams := by
  obtain ⟨net1, hrun, hstreams, hlen⟩ :=
    fetchChaps_paged env m feed hserve fuel 0 [] net (Nat.zero_le _) (by omega)
  refine ⟨net1, ?_, List.length_map _ _, ?_, hstreams⟩
  · simpa [Mangadex.FetchChapters] using hrun
  · simpa using hlen

/-- The resolver on a feed whose first `k` pages from an offset are served
with entries and whose next page fails: the call panics with the error of that
page after `k + 1` requests and closes every stream it opened. -/
theorem fetchChaps_abort (env : Env) (m : Mangadex) (err : String) :
    ∀ (k fuel offset : Nat) (chapters : Filterables) (net : Net),
      (∀ i, i < k → ∃ body, pageServes env m (offset + baseOffset * i) body ∧ body.Data ≠ []) →
      pageFails env m (offset + baseOffset * k) err →
      k + 1 ≤ fuel →
      ∃ net1, fetchChaps env m fuel offset chapters net =
          some (Exit.panicked (PanicValue.error err) net1)
        ∧ net1.streams = net.streams
        ∧ net1.requests.length = net.requests.length + (k + 1) := by
  intro k
  induction k with
  | zero =>
    intro fuel offset chapters net _ hfail hfuel
    obtain ⟨f, rfl⟩ : ∃ f, fuel = f + 1 := ⟨fuel - 1, by omega⟩
    obtain ⟨req, hrun⟩ := fetchChaps_fails env m f offset chapters net err (by simpa using hfail)
    exact ⟨_, hrun, rfl, by simp⟩
  | succ k ih =>
    intro fuel offset chapters net hgood hfail hfuel
    obtain ⟨f, rfl⟩ : ∃ f, fuel = f + 1 := ⟨fuel - 1, by omega⟩
    obtain ⟨body, hserve, hne⟩ := hgood 0 (Nat.succ_pos k)
    obtain ⟨req, hstep⟩ := fetchChaps_step env m f offset chapters net body (by simpa using hserve)
    have hpos : body.Data.length > 0 := List.length_pos.mpr hne
    rw [hstep, if_pos hpos]
    obtain ⟨net2, hrec, hstreams, hlen⟩ := ih f (offset + baseOffset)
      (chapters ++ body.Data.map (feedChapter env)) (net.opened req)
      (by
        intro i hi
        have := hgood (i + 1) (Nat.succ_lt_succ hi)
        simpa [Nat.mul_succ, Nat.add_assoc, Nat.add_comm baseOffset] using this)
      (by simpa [Nat.mul_succ, Nat.add_assoc, Nat.add_comm baseOffset] using hfail)
      (by omega)
    rw [hrec]
    simp only [Option.map_some', Exit.closing]
    refine ⟨{ requests := net2.requests, streams := net2.streams.erase net.requests.length },
      rfl, ?_, ?_⟩
    · simp [hstreams, Net.opened]
    · simp only [hlen, Net.opened, List.length_append, List.length_singleton]
      omega

/-- C2: when the fetch or the decode of a feed page that the resolver reaches
fails (the pages before it are served with entries, so the resolver goes on to
it), `FetchChapters` hands no chapters to the caller: with any fuel of at
least the number of pages requested, the call ends in a panic that carries
the error of the failing page, and the chapters of the pages decoded before
are not returned. -/
theorem FetchChapters_fail_fast (env : Env) (m : Mangadex) (net : Net) (k fuel : Nat)
    (err : String)
    (hgood : ∀ i, i < k → ∃ body, pageServes env m (baseOffset * i) body ∧ body.Data ≠ [])
    (hfail : pageFails env m (baseOffset * k) err)
    (hfuel : k + 1 ≤ fuel) :
    ∃ net1, Mangadex.FetchChapters env m fuel net =
        some (Exit.panicked (PanicValue.error err) net1)
      ∧ (Mangadex.FetchChapters env m fuel net).bind Exit.value? = none
      ∧ net1.requests.length = net.requests.length + (k + 1)
      ∧ net1.streams = net.streams := by
  obtain ⟨net1, hrun, hstreams, hlen⟩ := fetchChaps_abort env m err k fuel 0 [] net
    (by simpa using hgood) (by simpa using hfail) hfuel
  refine ⟨net1, hrun, ?_, hlen, hstreams⟩
  simp only [Mangadex.FetchChapters, hrun, Option.some_bind, Exit.value?]

/-- C1, an instance: a feed of two chapters is resolved with two requests, the
page at offset 0 and the empty page at offset 500. -/
theorem FetchChapters_paged_feed_witness :
    ∃ net1, Mangadex.FetchChapters
          (servedFeed [entry "c1" "1" "One", entry "c2" "2" "Two"]) (grabberFor "") 2 idle =
        some (Exit.returned
          ([entry "c1" "1" "One", entry "c2" "2" "Two"].map
            (feedChapter (servedFeed [entry "c1" "1" "One", entry "c2" "2" "Two"]))) net1)
      ∧ ([entry "c1" "1" "One", entry "c2" "2" "Two"].map
            (feedChapter (servedFeed [entry "c1" "1" "One", entry "c2" "2" "Two"]))).length = 2
      ∧ net1.requests.length = 0 + (1 + 1)
      ∧ net1.streams = [] :=
  FetchChapters_paged_feed (servedFeed [entry "c1" "1" "One", entry "c2" "2" "Two"])
    (grabberFor "") [entry "c1" "1" "One", entry "c2" "2" "Two"] idle 2
    (by
      intro i hi
      have hi1 : i ≤ 1 := hi
      interval_cases i
      · exact ⟨_, _, rfl, rfl, rfl⟩
      · exact ⟨_, _, rfl, rfl, rfl⟩)
    (by decide)

/-- C2, an instance: a decode error on the second of three feed pages.  The
call panics with the decoder's error after two requests and returns no
chapter. -/
theorem FetchChapters_fail_fast_witness :
    ∃ net1, Mangadex.FetchChapters brokenFeed (grabberFor "") 3 idle =
        some (Exit.panicked (PanicValue.error "invalid character") net1)
      ∧ (Mangadex.FetchChapters brokenFeed (grabberFor "") 3 idle).bind Exit.value? = none
      ∧ net1.requests.length = 0 + (1 + 1)
      ∧ net1.streams = [] :=
  FetchChapters_fail_fast brokenFeed (grabberFor "") idle 1 3 "invalid character"
    (by
      intro i hi
      have hi0 : i = 0 := by omega
      subst hi0
      exact ⟨{ Data := [entry "c1" "1" "One"] }, ⟨_, _, rfl, rfl, rfl⟩, by decide⟩)
    ⟨_, rfl, Or.inr ⟨_, rfl, rfl⟩⟩
    (by decide)

/-- C8, an instance: in `[{fr: A}, {es: B}, {es: Z}]` the language `es` gives
`B`, the value of the first of the two entries keyed `es`, and the language
`de`, which no entry has, gives the empty string. -/
theorem GetTitleByLang_first_match_wins_witness :
    AltTitles.GetTitleByLang [oneKey "fr" "A", oneKey "es" "B", oneKey "es" "Z"] "es" = "B"
      ∧ AltTitles.GetTitleByLang [oneKey "fr" "A", oneKey "es" "B", oneKey "es" "Z"] "de" = "" :=
  ⟨(GetTitleByLang_first_match_wins [oneKey "fr" "A", oneKey "es" "B", oneKey "es" "Z"] "es").1
      1 (oneKey "es" "B") "B" rfl rfl
      (by
        intro j hj u hu
        have hj0 : j = 0 := by omega
        subst hj0
        simp only [List.getElem?_cons_zero, Option.some.injEq] at hu
        subst hu
        rfl),
   (GetTitleByLang_first_match_wins [oneKey "fr" "A", oneKey "es" "B", oneKey "es" "Z"] "de").2
      (by
        intro t ht
        simp only [List.mem_cons, List.mem_singleton, List.not_mem_nil, or_false] at ht
        rcases ht with rfl | rfl | rfl <;> rfl)⟩

/-! ## Chapter numbers that do not parse -/

/-- The chapter of a feed entry keeps the title, the language and the
identifier of the entry; its number is the value `strconv.ParseFloat`
returned, whether or not it returned an error with it. -/
theorem feedChapter_eq (env : Env) (c : FeedEntry) :
    feedChapter env c = Filterable.mangadex
      { Title := c.Attributes.Title,
        Number := (env.ParseFloat c.Attributes.Chapter).1,
        PagesCount := 0,
        Language := c.Attributes.TranslatedLanguage,
        Pages := [],
        Id := c.Id } := rfl

/-- The sample parser returns 0 with `ErrSyntax` and `+Inf` with
`ErrRange`. -/
theorem sampleParseFloat_results : strconvResults sampleParseFloat := by
  intro s
  unfold sampleParseFloat
  split_ifs <;> simp

/-- C6, counterexample: a chapter-number field can fail to parse and still
give a number other than 0.  `strconv.ParseFloat("1e999", 64)` returns `+Inf`
together with `ErrRange`; the error is discarded and the chapter gets the
number `+Inf`. -/
theorem FetchChapters_out_of_range_counterexample :
    ¬ ∀ (env : Env) (m : Mangadex) (feed : List FeedEntry) (net : Net) (fuel i : Nat)
        (c : FeedEntry),
        strconvResults env.ParseFloat →
        (∀ k, k ≤ pagesFor feed.length →
          pageServes env m (baseOffset * k)
            { Data := (feed.drop (baseOffset * k)).take baseOffset }) →
        pagesFor feed.length + 1 ≤ fuel →
        feed[i]? = some c →
        (env.ParseFloat c.Attributes.Chapter).2 ≠ none →
        ∃ chapters net1, Mangadex.FetchChapters env m fuel net =
            some (Exit.returned chapters net1)
          ∧ (chapters[i]?).map Filterable.GetNumber = some Float64.zero := by
  intro h
  have hserve : ∀ k, k ≤ pagesFor [entry "c1" "1e999" "One"].length →
      pageServes (servedFeed [entry "c1" "1e999" "One"]) (grabberFor "") (baseOffset * k)
        { Data := ([entry "c1" "1e999" "One"].drop (baseOffset * k)).take baseOffset } := by
    intro k hk
    have hk1 : k ≤ 1 := hk
    interval_cases k
    · exact ⟨_, _, rfl, rfl, rfl⟩
    · exact ⟨_, _, rfl, rfl, rfl⟩
  obtain ⟨chapters, net1, hrun, hnum⟩ := h (servedFeed [entry "c1" "1e999" "One"])
    (grabberFor "") [entry "c1" "1e999" "One"] idle 2 0 (entry "c1" "1e999" "One")
    sampleParseFloat_results hserve (by decide) rfl (by decide)
  obtain ⟨net2, hrun2⟩ := FetchChapters_served
    (servedFeed [entry "c1" "1e999" "One"]) (grabberFor "") [entry "c1" "1e999" "One"] idle 2
    hserve (by decide)
  rw [hrun2] at hrun
  simp only [Option.some.injEq, Exit.returned.injEq] at hrun
  rw [← hrun.1] at hnum
  exact absurd hnum (by decide)

/-- C6, amended: on a feed served in pages of 500, whatever
`strconv.ParseFloat` reports for the chapter-number field of an entry,
`FetchChapters` does not abort: it returns one chapter per entry, in order,
and the chapter of the entry keeps its title, language and identifier and
has for number the value `ParseFloat` returned, its error discarded.  For a
malformed field (`ErrSyntax`) the number is 0; for a field out of the float64
range (`ErrRange`) it is an infinity. -/
theorem FetchChapters_parse_error_kept (env : Env) (m : Mangadex) (feed : List FeedEntry)
    (net : Net) (fuel i : Nat) (c : FeedEntry)
    (hlib : strconvResults env.ParseFloat)
    (hserve : ∀ k, k ≤ pagesFor feed.length →
      pageServes env m (baseOffset * k) { Data := (feed.drop (baseOffset * k)).take baseOffset })
    (hfuel : pagesFor feed.length + 1 ≤ fuel)
    (hc : feed[i]? = some c) :
    ∃ chapters net1, Mangadex.FetchChapters env m fuel net = some (Exit.returned chapters net1)
      ∧ chapters.length = feed.length
      ∧ (∀ (j : Nat) (d : FeedEntry), feed[j]? = some d →
          chapters[j]? = some (feedChapter env d))
      ∧ chapters[i]? = some (Filterable.mangadex
          { Title := c.Attributes.Title,
            Number := (env.ParseFloat c.Attributes.Chapter).1,
            PagesCount := 0,
            Language := c.Attributes.TranslatedLanguage,
            Pages := [],
            Id := c.Id })
      ∧ ((env.ParseFloat c.Attributes.Chapter).2 = some NumError.ErrSyntax →
          (chapters[i]?).map Filterable.GetNumber = some Float64.zero)
      ∧ ((env.ParseFloat c.Attributes.Chapter).2 = some NumError.ErrRange →
          ∃ negative, (chapters[i]?).map Filterable.GetNumber
            = some (Float64.inf negative)) := by
  obtain ⟨net1, hrun⟩ := FetchChapters_served env m feed net fuel hserve hfuel
  have hall : ∀ (j : Nat) (d : FeedEntry), feed[j]? = some d →
      (feed.map (feedChapter env))[j]? = some (feedChapter env d) := by
    intro j d hd
    simp [List.getElem?_map, hd]
  refine ⟨_, net1, hrun, List.length_map _ _, hall, hall i c hc, ?_, ?_⟩
  · intro hsyn
    rw [hall i c hc, feedChapter_eq]
    exact congrArg some ((hlib c.Attributes.Chapter).1 hsyn)
  · intro hrange
    obtain ⟨negative, hinf⟩ := (hlib c.Attributes.Chapter).2 hrange
    refine ⟨negative, ?_⟩
    rw [hall i c hc, feedChapter_eq]
    exact congrArg some hinf

/-- C6, an instance: the chapter-number field `abc` gives the number 0, and
the entry after it is returned as well. -/
theorem FetchChapters_parse_error_kept_witness :
    ∃ chapters net1,
      Mangadex.FetchChapters (servedFeed [entry "c1" "abc" "One", entry "c2" "2" "Two"])
          (grabberFor "") 2 idle = some (Exit.returned chapters net1)
      ∧ chapters.length = 2
      ∧ chapters[1]? = some (Filterable.mangadex
          { Title := "Two", Number := Float64.finite 2, PagesCount := 0, Language := "en",
            Pages := [], Id := "c2" })
      ∧ chapters[0]? = some (Filterable.mangadex
          { Title := "One", Number := Float64.zero, PagesCount := 0, Language := "en",
            Pages := [], Id := "c1" })
      ∧ (chapters[0]?).map Filterable.GetNumber = some Float64.zero := by
  obtain ⟨chapters, net1, hrun, hlen, hall, h0, hsyn, -⟩ := FetchChapters_parse_error_kept
    (servedFeed [entry "c1" "abc" "One", entry "c2" "2" "Two"]) (grabberFor "")
    [entry "c1" "abc" "One", entry "c2" "2" "Two"] idle 2 0 (entry "c1" "abc" "One")
    sampleParseFloat_results
    (by
      intro k hk
      have hk1 : k ≤ 1 := hk
      interval_cases k
      · exact ⟨_, _, rfl, rfl, rfl⟩
      · exact ⟨_, _, rfl, rfl, rfl⟩)
    (by decide) rfl
  exact ⟨chapters, net1, hrun, hlen, hall 1 (entry "c2" "2" "Two") rfl, h0, hsyn rfl⟩

/-! ## The page resolver -/

/-- C7: a chapter reference that is not a `*MangadexChapter` is rejected.  The
type assertion panics before any request is issued: the call returns no
chapter, and the request log and the open streams are as the call found
them. -/
theorem FetchChapter_rejects_foreign (env : Env) (m : Mangadex) (c : Chapter) (net : Net) :
    Mangadex.FetchChapter env m (Filterable.foreign c) net
        = Exit.panicked PanicValue.typeAssertion net
      ∧ (Mangadex.FetchChapter env m (Filterable.foreign c) net).value? = none
      ∧ (Mangadex.FetchChapter env m (Filterable.foreign c) net).net.requests = net.requests
      ∧ (Mangadex.FetchChapter env m (Filterable.foreign c) net).net.streams = net.streams :=
  ⟨rfl, rfl, rfl, rfl⟩

/-- A path without a slash is a single element, itself. -/
theorem splitSlash_plain (a : List Char) (h : '/' ∉ a) : splitSlash a = [a] := by
  induction a with
  | nil => rfl
  | cons c a ih =>
    have hc : c ≠ '/' := fun hc => h (by simp [hc])
    have ha : '/' ∉ a := fun ha => h (List.mem_cons_of_mem _ ha)
    simp only [splitSlash, hc, if_false, ih ha]

/-- The first element of a path ends at its first slash. -/
theorem splitSlash_append (a rest : List Char) (h : '/' ∉ a) :
    splitSlash (a ++ '/' :: rest) = a :: splitSlash rest := by
  induction a with
  | nil => simp [splitSlash]
  | cons c a ih =>
    have hc : c ≠ '/' := fun hc => h (by simp [hc])
    have ha : '/' ∉ a := fun ha => h (List.mem_cons_of_mem _ ha)
    have e := ih ha
    simp only [List.cons_append, splitSlash, hc, if_false]
    show (match splitSlash (a ++ '/' :: rest) with
      | [] => [[c]]
      | s :: ss => (c :: s) :: ss) = (c :: a) :: splitSlash rest
    rw [e]

/-- A plain element is kept by `path.Clean`. -/
theorem cleanStep_plain (rooted : Bool) (out : List (List Char)) (seg : List Char)
    (h0 : seg ≠ []) (h1 : seg ≠ ['.']) (h2 : seg ≠ ['.', '.']) :
    cleanStep rooted out seg = seg :: out := by
  simp only [cleanStep, h0, h1, h2, or_self, if_false]

/-- For a plain hash and a plain file name, `path.Join("/data", hash, file)`
is the concatenation `"/data/" + hash + "/" + file`. -/
theorem pathJoin_plain (hash file : String) (hh : plainSegment hash) (hf : plainSegment file) :
    pathJoin ["/data", hash, file] = "/data/" ++ hash ++ "/" ++ file := by
  obtain ⟨hh0, hhs, hh1, hh2⟩ := hh
  obtain ⟨hf0, hfs, hf1, hf2⟩ := hf
  have hsum : ¬ ((["/data", hash, file].map String.length).sum = 0) := by
    have h5 : "/data".length = 5 := by decide
    simp only [List.map_cons, List.map_nil, List.sum_cons, List.sum_nil, h5]
    omega
  have hbuf : joinBuf [] ["/data", hash, file]
      = '/' :: (['d', 'a', 't', 'a'] ++ '/' :: (hash.data ++ '/' :: file.data)) := by
    have hd : "/data" ≠ "" := by decide
    have hdd : "/data".data = ['/', 'd', 'a', 't', 'a'] := rfl
    simp [joinBuf, hd, hdd]
  have hdata : '/' ∉ ['d', 'a', 't', 'a'] := by decide
  have hsplit : splitSlash ('/' :: (['d', 'a', 't', 'a'] ++ '/' :: (hash.data ++ '/' :: file.data)))
      = [[], ['d', 'a', 't', 'a'], hash.data, file.data] := by
    rw [show '/' :: (['d', 'a', 't', 'a'] ++ '/' :: (hash.data ++ '/' :: file.data))
        = [] ++ '/' :: (['d', 'a', 't', 'a'] ++ '/' :: (hash.data ++ '/' :: file.data)) from rfl,
      splitSlash_append [] _ (List.not_mem_nil _), splitSlash_append _ _ hdata,
      splitSlash_append _ _ hhs, splitSlash_plain _ hfs]
  have hclean : pathClean ('/' :: (['d', 'a', 't', 'a'] ++ '/' :: (hash.data ++ '/' :: file.data)))
      = '/' :: (['d', 'a', 't', 'a'] ++ '/' :: (hash.data ++ '/' :: file.data)) := by
    simp only [pathClean, hsplit, List.foldl_cons, List.foldl_nil, decide_True, if_true]
    rw [show cleanStep true [] [] = [] from rfl,
      cleanStep_plain true [] ['d', 'a', 't', 'a'] (by decide) (by decide) (by decide),
      cleanStep_plain true _ hash.data hh0 hh1 hh2,
      cleanStep_plain true _ file.data hf0 hf1 hf2]
    rfl
  unfold pathJoin
  rw [if_neg hsum, hbuf, hclean]
  apply String.ext
  simp [String.data_append]

/-- The pages built from a manifest: one per file name, in order, numbered
from `start + 1`, each with the base URL followed by the joined path. -/
theorem createPages_getElem? (body : MangadexPagesFeed) :
    ∀ (files : List String) (start i : Nat) (file : String), files[i]? = some file →
      (createPages body start files)[i]? = some
        { Number := ((start + i + 1 : Nat) : Int),
          URL := body.BaseUrl ++ pathJoin ["/data", body.Chapter.Hash, file] } := by
  intro files
  induction files with
  | nil =>
    intro start i file h
    simp at h
  | cons p ps ih =>
    intro start i file h
    cases i with
    | zero =>
      simp only [List.getElem?_cons_zero, Option.some.injEq] at h
      subst h
      simp [createPages]
    | succ i =>
      simp only [List.getElem?_cons_succ] at h
      simp only [createPages, List.getElem?_cons_succ]
      rw [ih (start + 1) i file h]
      have : start + 1 + i + 1 = start + (i + 1) + 1 := by omega
      rw [this]

/-- There is one page per file name. -/
theorem createPages_length (body : MangadexPagesFeed) :
    ∀ (files : List String) (start : Nat), (createPages body start files).length = files.length := by
  intro files
  induction files with
  | nil => intro start; rfl
  | cons p ps ih => intro start; simp [createPages, ih]

/-- C5, counterexample: the page URL is built with `path.Join`, which cleans
the joined path, so it is not always the plain concatenation.  With base URL
`https://x`, hash `h1` and the file name `./a.png` the page URL is
`https://x/data/h1/a.png`, not `https://x/data/h1/./a.png`. -/
theorem FetchChapter_page_url_counterexample :
    ¬ ∀ (env : Env) (m : Mangadex) (chap : MangadexChapter) (net : Net) (rbody : String)
        (body : MangadexPagesFeed) (i : Nat) (file : String),
        env.Get (pagesRequest chap) = Except.ok rbody →
        env.DecodePages rbody = Except.ok body →
        body.Chapter.Data[i]? = some file →
        ∃ chapter net1,
          Mangadex.FetchChapter env m (Filterable.mangadex chap) net
            = Exit.returned chapter net1
          ∧ chapter.Pages[i]? = some
            { Number := ((i + 1 : Nat) : Int),
              URL := body.BaseUrl ++ "/data/" ++ body.Chapter.Hash ++ "/" ++ file } := by
  intro h
  obtain ⟨chapter, net1, hrun, hpage⟩ := h (pagesEnv (manifest "https://x" "h1" ["./a.png"]))
    (grabberFor "") sampleChapter idle "at-home.json" (manifest "https://x" "h1" ["./a.png"])
    0 "./a.png" rfl rfl rfl
  have hpages : (Mangadex.FetchChapter (pagesEnv (manifest "https://x" "h1" ["./a.png"]))
      (grabberFor "") (Filterable.mangadex sampleChapter) idle).value?.map Chapter.Pages
      = some [{ Number := 1, URL := "https://x/data/h1/a.png" }] := by
    decide
  rw [hrun] at hpages
  simp only [Exit.value?, Option.map_some', Option.some.injEq] at hpages
  rw [hpages] at hpage
  exact absurd hpage (by decide)

/-- C5, amended: for every page manifest (base URL, hash, file names
`f_1..f_n`) returned for a chapter, `FetchChapter` returns exactly `n` pages in
manifest order, the `i`-th page has number `i` and the URL
`baseUrl ++ path.Join("/data", hash, f_i)`; when the hash and `f_i` are plain
path elements (not empty, without a slash, neither `.` nor `..`) that URL is
`baseUrl ++ "/data/" ++ hash ++ "/" ++ f_i`. -/
theorem FetchChapter_pages (env : Env) (m : Mangadex) (chap : MangadexChapter) (net : Net)
    (rbody : String) (body : MangadexPagesFeed)
    (hget : env.Get (pagesRequest chap) = Except.ok rbody)
    (hdec : env.DecodePages rbody = Except.ok body) :
    ∃ chapter net1,
      Mangadex.FetchChapter env m (Filterable.mangadex chap) net = Exit.returned chapter net1
      ∧ chapter.Pages.length = body.Chapter.Data.length
      ∧ (∀ (i : Nat) (file : String), body.Chapter.Data[i]? = some file →
          chapter.Pages[i]? = some
            { Number := ((i + 1 : Nat) : Int),
              URL := body.BaseUrl ++ pathJoin ["/data", body.Chapter.Hash, file] })
      ∧ (∀ (i : Nat) (file : String), body.Chapter.Data[i]? = some file →
          plainSegment body.Chapter.Hash → plainSegment file →
          chapter.Pages[i]? = some
            { Number := ((i + 1 : Nat) : Int),
              URL := body.BaseUrl ++ "/data/" ++ body.Chapter.Hash ++ "/" ++ file }) := by
  have hall : ∀ (i : Nat) (file : String), body.Chapter.Data[i]? = some file →
      (createPages body 0 body.Chapter.Data)[i]? = some
        { Number := ((i + 1 : Nat) : Int),
          URL := body.BaseUrl ++ pathJoin ["/data", body.Chapter.Hash, file] } := by
    intro i file hfile
    rw [createPages_getElem? body _ 0 i file hfile, Nat.zero_add]
  refine ⟨{ Title := "Chapter " ++ fmt04d (env.toInt64 chap.Number) ++ " " ++ chap.Title,
            Number := chap.Number,
            PagesCount := (body.Chapter.Data.length : Int),
            Language := chap.Language,
            Pages := createPages body 0 body.Chapter.Data },
    net.opened (pagesRequest chap), ?_, ?_, ?_, ?_⟩
  · simp only [Mangadex.FetchChapter, httpGet_ok env _ net rbody hget, hdec]
    rfl
  · exact createPages_length body _ 0
  · exact hall
  · intro i file hfile hhash hplain
    rw [hall i file hfile, pathJoin_plain _ _ hhash hplain]
    simp only [String.append_assoc]

/-- C5, the example: with base URL `https://x`, hash `h1` and file names
`a.png`, `b.png` the pages are `https://x/data/h1/a.png` and
`https://x/data/h1/b.png`, numbered 1 and 2. -/
theorem FetchChapter_pages_witness :
    ∃ chapter net1,
      Mangadex.FetchChapter (pagesEnv (manifest "https://x" "h1" ["a.png", "b.png"]))
          (grabberFor "") (Filterable.mangadex sampleChapter) idle = Exit.returned chapter net1
      ∧ chapter.Pages.length = 2
      ∧ chapter.Pages[0]? = some { Number := 1, URL := "https://x/data/h1/a.png" }
      ∧ chapter.Pages[1]? = some { Number := 2, URL := "https://x/data/h1/b.png" } := by
  obtain ⟨chapter, net1, hrun, hlen, -, hplain⟩ := FetchChapter_pages
    (pagesEnv (manifest "https://x" "h1" ["a.png", "b.png"])) (grabberFor "") sampleChapter idle
    "at-home.json" (manifest "https://x" "h1" ["a.png", "b.png"]) rfl rfl
  refine ⟨chapter, net1, hrun, hlen, ?_, ?_⟩
  · have h0 := hplain 0 "a.png" rfl (by decide) (by decide)
    rw [h0]
    decide
  · have h1 := hplain 1 "b.png" rfl (by decide) (by decide)
    rw [h1]
    decide

/-! ## Response streams -/

/-- Streams of `GetTitle`: the call leaves the open streams as it found them, on every exit
path. -/
theorem GetTitle_streams (env : Env) (m : Mangadex) (net : Net) :
    (Mangadex.GetTitle env m net).1.net.streams = net.streams := by
  by_cases hcache : m.title = ""
  · cases hget : env.Get (mangaRequest env m) with
    | error err =>
      simp only [Mangadex.GetTitle, hcache, ne_eq, not_true_eq_false, if_false,
        httpGet_error env _ net err hget, Exit.net]
    | ok rbody =>
      cases hdec : env.DecodeManga rbody with
      | error err =>
        simp only [Mangadex.GetTitle, hcache, ne_eq, not_true_eq_false, if_false,
          httpGet_ok env _ net rbody hget, hdec, Close_opened, Exit.net]
      | ok body =>
        rw [GetTitle_fetched env m net rbody body hcache hget hdec]
        split_ifs <;> rfl
  · rw [GetTitle_cached env m net hcache]
    rfl

/-- Streams of `fetchChaps`: the call leaves the open streams as it found them, whether it returns
or panics. -/
theorem fetchChaps_streams (env : Env) (m : Mangadex) :
    ∀ (fuel offset : Nat) (chapters : Filterables) (net : Net) (e : Exit Filterables),
      fetchChaps env m fuel offset chapters net = some e → e.net.streams = net.streams := by
  intro fuel
  induction fuel with
  | zero =>
    intro offset chapters net e h
    simp [fetchChaps] at h
  | succ fuel ih =>
    intro offset chapters net e h
    cases hreq : feedRequest env m offset with
    | error err =>
      simp only [fetchChaps, hreq, Option.some.injEq] at h
      subst h
      rfl
    | ok req =>
      cases hget : env.Get req with
      | error err =>
        simp only [fetchChaps, hreq, httpGet_error env req net err hget, Option.some.injEq] at h
        subst h
        rfl
      | ok rbody =>
        cases hdec : env.DecodeFeed rbody with
        | error err =>
          simp only [fetchChaps, hreq, httpGet_ok env req net rbody hget, hdec, Close_opened,
            Option.some.injEq] at h
          subst h
          rfl
        | ok body =>
          obtain ⟨req1, hstep⟩ := fetchChaps_step env m fuel offset chapters net body
            ⟨req, rbody, hreq, hget, hdec⟩
          rw [hstep] at h
          split_ifs at h with hlen
          · cases hrec : fetchChaps env m fuel (offset + baseOffset)
                (chapters ++ body.Data.map (feedChapter env)) (net.opened req1) with
            | none => simp [hrec] at h
            | some e2 =>
              simp only [hrec, Option.map_some', Option.some.injEq] at h
              subst h
              exact (closing_opened e2 net req1 (ih _ _ _ e2 hrec)).1
          · simp only [Option.some.injEq] at h
            subst h
            rfl

/-- Streams of `FetchChapters`: the call leaves the open streams as it found them, whether it
returns or panics. -/
theorem FetchChapters_streams (env : Env) (m : Mangadex) (fuel : Nat) (net : Net)
    (e : Exit Filterables) (h : Mangadex.FetchChapters env m fuel net = some e) :
    e.net.streams = net.streams :=
  fetchChaps_streams env m fuel 0 [] net e h

/-- Streams of `FetchChapter`: the call never closes the stream of the manifest; whenever the
transport answers, the call exits with one more open stream than it found,
whether the manifest decodes or not. -/
theorem FetchChapter_stream_stays_open (env : Env) (m : Mangadex) (chap : MangadexChapter)
    (net : Net) (rbody : String) (hget : env.Get (pagesRequest chap) = Except.ok rbody) :
    (Mangadex.FetchChapter env m (Filterable.mangadex chap) net).net.streams
      = net.requests.length :: net.streams := by
  simp only [Mangadex.FetchChapter, httpGet_ok env _ net rbody hget]
  cases env.DecodePages rbody <;> rfl

/-- C10, the failing input: `FetchChapter` on a chapter of the feed, with a
transport on which no stream is open.  The manifest is fetched and decoded,
the chapter is returned, and the stream of the manifest is still open. -/
theorem FetchChapter_leaks_stream :
    idle.streams = []
      ∧ (Mangadex.FetchChapter (pagesEnv (manifest "https://x" "h1" ["a.png", "b.png"]))
          (grabberFor "") (Filterable.mangadex sampleChapter) idle).net.streams = [0]
      ∧ (Mangadex.FetchChapter (pagesEnv (manifest "https://x" "h1" ["a.png", "b.png"]))
          (grabberFor "") (Filterable.mangadex sampleChapter) idle).value?.isSome = true := by
  refine ⟨rfl, ?_, ?_⟩
  · exact FetchChapter_stream_stays_open _ _ _ idle "at-home.json" rfl
  · rfl

end MangaDownloader
